import Mathlib

/-!
Shallow embedding of EnvWrap (`src/main.py`), an environment/PATH manager.

State is modelled explicitly:
* the on-disk registry (`ENV_BASE_DIR/*.json`) as a list of `RecordFile`s
  keyed by file stem, each with an observable `RecordContent`;
* the active-environment pointer (`.current_env`) as a resolved name
  (`FsState.pointer`); the raw read with its fallback behaviour is modelled
  separately by `get_current_env_name` over `PointerStorage`;
* the process path variable `os.environ["PATH"]` as the list obtained by
  splitting on the separator (`FsState.pathVar`).

Filesystem-dependent primitives are abstracted as function parameters:
`resolve` stands for `str(Path(p).resolve())` (pure string normalisation,
total even for non-existent paths) and `fsExists` for `Path(p).exists()`.

Commands return `Except (CmdError × FsState) FsState`: an error carries the
state at the moment the command aborted (so "no state mutated" is visible in
the statement), an `.ok` carries the final state.
-/

namespace EnvWrap

/-- Filesystem path strings: entries of PATH and of environment records. -/
abbrev PathStr := String

/-- Environment names; also the stem of the backing record file. -/
abbrev EnvName := String

/-- Observable content of one record file `<stem>.json`: unreadable
(`OSError` on read), empty text, text that is not valid JSON, or a parsed
JSON object carrying an optional `name` field and the value of
`config.get("paths", [])`. -/
inductive RecordContent where
  | unreadable : RecordContent
  | empty : RecordContent
  | unparseable : RecordContent
  | parsed : Option EnvName → List PathStr → RecordContent
deriving DecidableEq, Repr

/-- One file in `ENV_BASE_DIR` matching `*.json`. -/
structure RecordFile where
  stem : String
  content : RecordContent
deriving DecidableEq, Repr

/-- The in-memory `Env` class: a name and its ordered path list
(`self.env_paths`). -/
structure Env where
  name : EnvName
  env_paths : List PathStr
deriving DecidableEq, Repr

/-- Record written by `Env.save`: `{"name": self.name, "paths": self.env_paths}`
stored at `<name>.json`. -/
def Env.save (e : Env) : RecordFile :=
  ⟨e.name, .parsed (some e.name) e.env_paths⟩

/-- Embedding of `Env.add_path`: resolve, and if the resolved path is not yet
present append it and save. Returns the updated `Env`, the boolean result,
and the record written by the `save` call (if any). -/
def Env.add_path (resolve : String → String) (e : Env) (path : String) :
    Env × Bool × Option RecordFile :=
  let abs := resolve path
  if abs ∈ e.env_paths then (e, false, none)
  else
    let e' : Env := ⟨e.name, e.env_paths ++ [abs]⟩
    (e', true, some e'.save)

/-- Embedding of `Env.remove_path`: resolve, and if present remove the first
occurrence (`list.remove`) and save. -/
def Env.remove_path (resolve : String → String) (e : Env) (path : String) :
    Env × Bool × Option RecordFile :=
  let abs := resolve path
  if abs ∈ e.env_paths then
    let e' : Env := ⟨e.name, e.env_paths.erase abs⟩
    (e', true, some e'.save)
  else (e, false, none)

/-- Look up the record file with the given stem (filesystem stems are unique,
so first match suffices). -/
def findRecord : List RecordFile → EnvName → Option RecordFile
  | [], _ => none
  | f :: fs, n => if f.stem = n then some f else findRecord fs n

/-- Embedding of `(ENV_BASE_DIR / f"{name}.json").exists()`. -/
def recordExists (files : List RecordFile) (n : EnvName) : Bool :=
  (findRecord files n).isSome

/-- Result of reading a record file and extracting `config.get("paths", [])`:
`none` when the read or the JSON parse raises. -/
def contentPaths : RecordContent → Option (List PathStr)
  | .parsed _ ps => some ps
  | _ => none

/-- Embedding of `Env(name)` / `Env.load`: paths from the backing record if it
exists and parses, otherwise the empty list (fail-soft). -/
def loadEnv (files : List RecordFile) (name : EnvName) : Env :=
  ⟨name, match findRecord files name with
    | some f => (contentPaths f.content).getD []
    | none => []⟩

/-- Embedding of the `all_envwrap_paths` union computed in `activate`: every
path of every readable record, unreadable or unparseable records skipped.
Python uses a `set`; only membership is ever consulted, so a concatenation
is a faithful model. -/
def unionPaths (files : List RecordFile) : List PathStr :=
  files.foldr (fun f acc =>
    match contentPaths f.content with
    | some ps => ps ++ acc
    | none => acc) []

/-- Effect of `Env.save` on the registry: the file `<name>.json` now holds the
saved record (any previous file with that stem is overwritten). -/
def saveRecord (files : List RecordFile) (e : Env) : List RecordFile :=
  e.save :: files.filter (fun f => f.stem ≠ e.name)

/-- The state a command operates on: the registry directory, the active
pointer, and the process path variable (split on the separator). -/
structure FsState where
  records : List RecordFile
  pointer : EnvName
  pathVar : List PathStr
deriving DecidableEq, Repr

/-- Embedding of `set_current_env`: write the pointer file. -/
def set_current_env (s : FsState) (name : EnvName) : FsState :=
  { s with pointer := name }

/-- Errors a command can surface: the structured validation failures of the
spec taxonomy, plus the unhandled Python `TypeError` raised when `open()` is
applied to a non-path object. -/
inductive CmdError where
  | reservedNameViolation : CmdError
  | environmentNotFound : CmdError
  | pathDoesNotExist : CmdError
  | typeError : CmdError
deriving DecidableEq, Repr

/-- The value bound to `activate`'s `export_shell` parameter: `None` (the CLI
default, falsy), a real file path given via `--export-shell`, or the
`typer.Option(None, ...)` sentinel object that is the Python default when the
function is called directly (truthy, not a path). -/
inductive ExportArg where
  | pyNone : ExportArg
  | filePath : String → ExportArg
  | optionInfoDefault : ExportArg
deriving DecidableEq, Repr

/-- Outcome of a command: an error carries the state at the moment the
command aborted, `.ok` the final state. -/
abbrev CmdResult := Except (CmdError × FsState) FsState

/-- Boolean success test on a command outcome. -/
def isOk : CmdResult → Bool
  | .ok _ => true
  | .error _ => false

/-- Decidable equality of command outcomes, so runs on concrete states can
be checked by evaluation. -/
instance : DecidableEq CmdResult := fun a b =>
  match a, b with
  | .ok x, .ok y => decidable_of_iff (x = y) (by simp)
  | .error x, .error y => decidable_of_iff (x = y) (by simp)
  | .ok _, .error _ => isFalse (by simp)
  | .error _, .ok _ => isFalse (by simp)

/-- The conditional-prepend step of `activate`:
`if path not in cleaned_path: cleaned_path.insert(0, path)`. -/
def insertFront (acc : List PathStr) (p : PathStr) : List PathStr :=
  if p ∈ acc then acc else p :: acc

/-- Embedding of the `activate` command. Order follows the source: existence
check, union computation, pointer write, target load, then one of the three
`export_shell` behaviours. With a real `--export-shell` file the process path
variable is untouched (only a script file is written, whose text no claim
depends on); with the direct-call sentinel, `open(export_shell, "w")` raises
`TypeError` after the pointer was already switched; with `None`, the
in-process filter-then-prepend runs. -/
def activate (s : FsState) (name : EnvName) (export_shell : ExportArg) :
    CmdResult :=
  if name ≠ "base" ∧ recordExists s.records name = false then
    .error (.environmentNotFound, s)
  else
    let u := unionPaths s.records
    let s1 := set_current_env s name
    let env := loadEnv s1.records name
    match export_shell with
    | .filePath _ => .ok s1
    | .optionInfoDefault => .error (.typeError, s1)
    | .pyNone =>
        let cleaned := s1.pathVar.filter (fun p => p ∉ u)
        .ok { s1 with pathVar := env.env_paths.foldl insertFront cleaned }

/-- Embedding of the `delete` command. When the deleted environment is the
active one, the source calls the Python function `activate(name="base")`
directly, so `export_shell` is bound to the truthy `typer.Option` sentinel;
any error it raises propagates and the `unlink` is never reached. -/
def delete (s : FsState) (name : EnvName) : CmdResult :=
  if name = "base" then .error (.reservedNameViolation, s)
  else if recordExists s.records name = false then
    .error (.environmentNotFound, s)
  else
    match (if s.pointer = name then activate s "base" .optionInfoDefault
           else .ok s) with
    | .error e => .error e
    | .ok s1 => .ok { s1 with records := s1.records.filter (fun f => f.stem ≠ name) }

/-- Embedding of the `clone` command: load the source (fail-soft), refuse a
`base` target and a missing source file, then save the source's path list
under the target name. -/
def clone (s : FsState) (source target : EnvName) : CmdResult :=
  if target = "base" then .error (.reservedNameViolation, s)
  else if recordExists s.records source = false then
    .error (.environmentNotFound, s)
  else
    let source_env := loadEnv s.records source
    .ok { s with records := saveRecord s.records ⟨target, source_env.env_paths⟩ }

/-- Embedding of the `addpath` command: refuse a path that does not exist on
the filesystem before touching anything; otherwise run `Env.add_path` on the
current environment and, when it reports an addition, persist the record and
prepend the resolved path to the process path variable unless already
present. -/
def addpath (resolve : String → String) (fsExists : String → Bool)
    (s : FsState) (path : String) : CmdResult :=
  if fsExists path = false then .error (.pathDoesNotExist, s)
  else
    let env := loadEnv s.records s.pointer
    let r := Env.add_path resolve env path
    if r.2.1 then
      let s1 := { s with records := saveRecord s.records r.1 }
      let abs := resolve path
      .ok { s1 with pathVar := if abs ∈ s1.pathVar then s1.pathVar else abs :: s1.pathVar }
    else .ok s

/-- Embedding of the `removepath` command: run `Env.remove_path` on the
current environment and, when it reports a removal, persist the record and
drop the first occurrence of the resolved path from the process path
variable if present. It never fails, so it returns the state directly. -/
def removepath (resolve : String → String) (s : FsState) (path : String) :
    FsState :=
  let env := loadEnv s.records s.pointer
  let r := Env.remove_path resolve env path
  if r.2.1 then
    let s1 := { s with records := saveRecord s.records r.1 }
    let abs := resolve path
    { s1 with pathVar := if abs ∈ s1.pathVar then s1.pathVar.erase abs else s1.pathVar }
  else s

/-- One line of the `list` command's output (without `--names-only`):
an environment line with or without the `(active)` marker, or the
`+ !!! Error: <file> is an invalid env file` line identifying the origin
file of an invalid record. -/
inductive ListEntry where
  | active : EnvName → ListEntry
  | plain : EnvName → ListEntry
  | invalid : String → ListEntry
deriving DecidableEq, Repr

/-- Classification of one non-base record file in `list`: unreadable, empty,
unparseable, or missing the `name` field gives the invalid-file line; a valid
record is printed under its declared `name`, marked active when that declared
name equals the current environment. -/
def entryFor (current : EnvName) (f : RecordFile) : ListEntry :=
  match f.content with
  | .parsed (some n) _ => if n = current then .active n else .plain n
  | _ => .invalid f.stem

/-- Embedding of the `list` command (without `--names-only`): the `base`
line first, then one line per non-base record file in directory order. -/
def list (files : List RecordFile) (current : EnvName) : List ListEntry :=
  (if current = "base" then ListEntry.active "base" else ListEntry.plain "base") ::
  files.filterMap (fun f => if f.stem = "base" then none else some (entryFor current f))

/-- Observable state of the pointer file `.current_env`: missing, unreadable
(`OSError` on open/read), or present with some text content. -/
inductive PointerStorage where
  | missing : PointerStorage
  | unreadable : PointerStorage
  | contents : String → PointerStorage
deriving DecidableEq, Repr

/-- Embedding of `get_current_env_name`, parametric in the JSON parse
(`parse text = none` models a `json.JSONDecodeError`): a missing file,
an unreadable file, and unparseable content all yield `"base"`. -/
def get_current_env_name (parse : String → Option EnvName) :
    PointerStorage → EnvName
  | .missing => "base"
  | .unreadable => "base"
  | .contents text => (parse text).getD "base"

/-- Helper for stating what the `activate` fold computes: the elements of
`ps` in order, skipping any already seen (initially `seen`), each kept
element becoming seen for the rest. -/
def dedupNotIn : List PathStr → List PathStr → List PathStr
  | [], _ => []
  | p :: ps, seen => if p ∈ seen then dedupNotIn ps seen else p :: dedupNotIn ps (p :: seen)

/-- Definition following claim C1's words, not the source (for the
refinement comparison): filter the ambient list by the union set, then put
the target's stored paths — in their stored relative order, skipping any
already present after the filter — in front of the filtered ambient
entries. -/
def claimedNewPathList (envP ambient u : List PathStr) : List PathStr :=
  let cleaned := ambient.filter (fun p => p ∉ u)
  envP.filter (fun p => p ∉ cleaned) ++ cleaned

/-- Sample record: environment `dev` with two stored paths. -/
def devRecord : RecordFile :=
  ⟨"dev", .parsed (some "dev") ["/opt/dev/a", "/opt/dev/b"]⟩

/-- Sample record: environment `ci` with one stored path. -/
def ciRecord : RecordFile :=
  ⟨"ci", .parsed (some "ci") ["/opt/ci/bin"]⟩

/-- Sample record whose file content is not valid JSON. -/
def brokenRecord : RecordFile :=
  ⟨"broken", .unparseable⟩

/-- Sample state: `dev` on disk, `base` active, one ambient PATH entry. -/
def s0 : FsState := ⟨[devRecord], "base", ["/usr/bin"]⟩

/-- The state `s0` after `activate dev` (in-process branch). -/
def devActivated : FsState :=
  ⟨[devRecord], "dev", ["/opt/dev/b", "/opt/dev/a", "/usr/bin"]⟩

/-- Sample state for the no-leak run: `dev` and `ci` on disk, a stale `dev`
path already in the ambient PATH. -/
def leakStart : FsState :=
  ⟨[devRecord, ciRecord], "base", ["/usr/bin", "/opt/dev/a"]⟩

/-- The state `leakStart` after `activate dev`. -/
def leakMid : FsState :=
  ⟨[devRecord, ciRecord], "dev", ["/opt/dev/b", "/opt/dev/a", "/usr/bin"]⟩

/-- The state `leakMid` after `activate ci`. -/
def leakEnd : FsState :=
  ⟨[devRecord, ciRecord], "ci", ["/opt/ci/bin", "/usr/bin"]⟩

/-- Sample state in which `dev` exists and is the active environment. -/
def s3 : FsState := ⟨[devRecord], "dev", []⟩

/-- Sample state for the clone run: `dev` on disk, `base` active. -/
def cloneStart : FsState := ⟨[devRecord], "base", []⟩

/-- The state `cloneStart` after `clone dev staging`. -/
def cloneDone : FsState :=
  ⟨[⟨"staging", .parsed (some "staging") ["/opt/dev/a", "/opt/dev/b"]⟩, devRecord],
   "base", []⟩

/-- The state `cloneDone` with `dev` active, after `addpath /opt/extra`
(with identity resolution and an all-exists filesystem). -/
def cloneMutated : FsState :=
  ⟨[⟨"dev", .parsed (some "dev") ["/opt/dev/a", "/opt/dev/b", "/opt/extra"]⟩,
    ⟨"staging", .parsed (some "staging") ["/opt/dev/a", "/opt/dev/b"]⟩],
   "dev", ["/opt/extra"]⟩

/-- The state `s3` after `addpath /opt/extra` run with `dev` as both source
and clone target (for the self-clone counterexample). -/
def selfCloneMutated : FsState :=
  ⟨[⟨"dev", .parsed (some "dev") ["/opt/dev/a", "/opt/dev/b", "/opt/extra"]⟩],
   "dev", ["/opt/extra"]⟩

/-! ### Helper lemmas about the registry and the activation fold -/

/-- Every element kept by `dedupNotIn` comes from the scanned list. -/
theorem dedupNotIn_subset : ∀ (ps seen : List PathStr) (x : PathStr),
    x ∈ dedupNotIn ps seen → x ∈ ps
  | [], _, x, h => by simp [dedupNotIn] at h
  | p :: ps, seen, x, h => by
    by_cases hp : p ∈ seen
    · simp only [dedupNotIn, if_pos hp] at h
      exact List.mem_cons_of_mem _ (dedupNotIn_subset ps seen x h)
    · simp only [dedupNotIn, if_neg hp, List.mem_cons] at h
      rcases h with rfl | h
      · exact List.mem_cons_self _ _
      · exact List.mem_cons_of_mem _ (dedupNotIn_subset ps (p :: seen) x h)

/-- Closed form of the `activate` prepend loop: folding `insertFront` over
the target's paths puts the not-yet-seen ones, in reversed scan order, in
front of the accumulator. -/
theorem foldl_insertFront : ∀ (ps acc : List PathStr),
    ps.foldl insertFront acc = (dedupNotIn ps acc).reverse ++ acc
  | [], acc => by simp [dedupNotIn]
  | p :: ps, acc => by
    by_cases hp : p ∈ acc
    · simp only [List.foldl_cons, insertFront, if_pos hp, dedupNotIn,
        foldl_insertFront ps acc]
    · simp only [List.foldl_cons, insertFront, if_neg hp, dedupNotIn,
        foldl_insertFront ps (p :: acc), List.reverse_cons, List.append_assoc,
        List.cons_append, List.nil_append]

/-- A record located by `findRecord` is one of the directory's files. -/
theorem findRecord_mem : ∀ (files : List RecordFile) (n : EnvName)
    (f : RecordFile), findRecord files n = some f → f ∈ files
  | [], _, _, h => by simp [findRecord] at h
  | g :: fs, n, f, h => by
    by_cases hg : g.stem = n
    · simp only [findRecord, if_pos hg, Option.some.injEq] at h
      exact h ▸ List.mem_cons_self _ _
    · simp only [findRecord, if_neg hg] at h
      exact List.mem_cons_of_mem _ (findRecord_mem fs n f h)

/-- Every path of a readable record is in the union path set. -/
theorem mem_unionPaths : ∀ (files : List RecordFile) (f : RecordFile)
    (ps : List PathStr) (p : PathStr), f ∈ files →
    contentPaths f.content = some ps → p ∈ ps → p ∈ unionPaths files
  | [], _, _, _, hf, _, _ => by simp at hf
  | g :: fs, f, ps, p, hf, hc, hp => by
    rcases List.mem_cons.mp hf with rfl | hf'
    · simp only [unionPaths, List.foldr_cons, hc]
      exact List.mem_append_left _ hp
    · have ih := mem_unionPaths fs f ps p hf' hc hp
      cases hcg : contentPaths g.content with
      | none => simpa only [unionPaths, List.foldr_cons, hcg] using ih
      | some qs =>
        simp only [unionPaths, List.foldr_cons, hcg]
        exact List.mem_append_right _ ih

/-- Every path of the loaded target environment is in the union path set. -/
theorem loadEnv_mem_union (files : List RecordFile) (n : EnvName) (p : PathStr)
    (hp : p ∈ (loadEnv files n).env_paths) : p ∈ unionPaths files := by
  cases hf : findRecord files n with
  | none => simp [loadEnv, hf] at hp
  | some f =>
    cases hc : contentPaths f.content with
    | none => simp [loadEnv, hf, hc] at hp
    | some ps =>
      simp only [loadEnv, hf, hc, Option.getD_some] at hp
      exact mem_unionPaths files f ps p (findRecord_mem files n f hf) hc hp

/-- A list whose elements all lie in `u` is emptied by the cleanup filter. -/
theorem filter_notin_eq_nil {u l : List PathStr} (h : ∀ x ∈ l, x ∈ u) :
    l.filter (fun p => p ∉ u) = [] := by
  rw [List.filter_eq_nil_iff]
  intro a ha
  simp [h a ha]

/-- The cleanup filter is idempotent. -/
theorem filter_notin_idem {u l : List PathStr} :
    (l.filter (fun p => p ∉ u)).filter (fun p => p ∉ u)
      = l.filter (fun p => p ∉ u) := by
  rw [List.filter_eq_self]
  intro a ha
  exact (List.mem_filter.mp ha).2

/-- Re-cleaning the path list produced by an activation recovers the cleaned
ambient list, provided every target path lies in the union set. -/
theorem filter_activated {P l u : List PathStr} (hP : ∀ p ∈ P, p ∈ u) :
    ((dedupNotIn P (l.filter (fun p => p ∉ u))).reverse
        ++ l.filter (fun p => p ∉ u)).filter (fun p => p ∉ u)
      = l.filter (fun p => p ∉ u) := by
  rw [List.filter_append, filter_notin_idem, filter_notin_eq_nil, List.nil_append]
  intro x hx
  exact hP x (dedupNotIn_subset _ _ _ (List.mem_reverse.mp hx))

/-- Success characterization of `activate` without shell export: the pointer
is switched and the path variable becomes the reversed fresh target paths in
front of the cleaned ambient list. -/
theorem activate_pyNone_ok (s : FsState) (name : EnvName)
    (h : ¬(name ≠ "base" ∧ recordExists s.records name = false)) :
    activate s name .pyNone = .ok
      { s with
        pointer := name
        pathVar := (dedupNotIn (loadEnv s.records name).env_paths
            (s.pathVar.filter (fun p => p ∉ unionPaths s.records))).reverse
          ++ s.pathVar.filter (fun p => p ∉ unionPaths s.records) } := by
  unfold activate
  rw [if_neg h]
  simp [set_current_env, foldl_insertFront]

/-- Inversion of a successful `activate` without shell export. -/
theorem activate_pyNone_inv (s : FsState) (name : EnvName) (s' : FsState)
    (h : activate s name .pyNone = .ok s') :
    ¬(name ≠ "base" ∧ recordExists s.records name = false) ∧
    s' = { s with
           pointer := name
           pathVar := (dedupNotIn (loadEnv s.records name).env_paths
               (s.pathVar.filter (fun p => p ∉ unionPaths s.records))).reverse
             ++ s.pathVar.filter (fun p => p ∉ unionPaths s.records) } := by
  by_cases hc : name ≠ "base" ∧ recordExists s.records name = false
  · rw [activate, if_pos hc] at h
    exact absurd h (by simp)
  · rw [activate_pyNone_ok s name hc] at h
    injection h with h'
    exact ⟨hc, h'.symm⟩

/-- Component form of `activate_pyNone_ok`, convenient for rewriting. -/
theorem activate_pyNone_ok_mk (A : List RecordFile) (ptr : EnvName)
    (pv : List PathStr) (name : EnvName)
    (h : ¬(name ≠ "base" ∧ recordExists A name = false)) :
    activate ⟨A, ptr, pv⟩ name .pyNone = .ok ⟨A, name,
      (dedupNotIn (loadEnv A name).env_paths
          (pv.filter (fun p => p ∉ unionPaths A))).reverse
        ++ pv.filter (fun p => p ∉ unionPaths A)⟩ :=
  activate_pyNone_ok ⟨A, ptr, pv⟩ name h

/-- Component form of `activate_pyNone_inv`. -/
theorem activate_pyNone_inv_mk (A : List RecordFile) (ptr : EnvName)
    (pv : List PathStr) (name : EnvName) (s' : FsState)
    (h : activate ⟨A, ptr, pv⟩ name .pyNone = .ok s') :
    ¬(name ≠ "base" ∧ recordExists A name = false) ∧
    s' = ⟨A, name,
      (dedupNotIn (loadEnv A name).env_paths
          (pv.filter (fun p => p ∉ unionPaths A))).reverse
        ++ pv.filter (fun p => p ∉ unionPaths A)⟩ := by
  obtain ⟨hc, e⟩ := activate_pyNone_inv ⟨A, ptr, pv⟩ name s' h
  exact ⟨hc, e.trans rfl⟩

/-- The record found for a name `m` is untouched by filtering out the files
of a different name `n`. -/
theorem findRecord_filter_ne : ∀ (files : List RecordFile) (n m : EnvName),
    m ≠ n → findRecord (files.filter (fun f => f.stem ≠ n)) m = findRecord files m
  | [], _, _, _ => rfl
  | g :: fs, n, m, h => by
    rw [List.filter_cons]
    by_cases hg : g.stem = n
    · rw [if_neg (by simp [hg])]
      have hgm : ¬g.stem = m := fun hh => h (hh.symm.trans hg)
      rw [findRecord_filter_ne fs n m h]
      simp only [findRecord, if_neg hgm]
    · rw [if_pos (by simp [hg])]
      simp only [findRecord]
      by_cases hgm : g.stem = m
      · rw [if_pos hgm, if_pos hgm]
      · rw [if_neg hgm, if_neg hgm]
        exact findRecord_filter_ne fs n m h

/-- Saving a record leaves lookups of every other name unchanged. -/
theorem findRecord_saveRecord_ne (files : List RecordFile) (e : Env)
    (m : EnvName) (h : m ≠ e.name) :
    findRecord (saveRecord files e) m = findRecord files m := by
  have hs : ¬(Env.save e).stem = m := fun hh => h (hh.symm.trans rfl)
  simp only [saveRecord, findRecord, if_neg hs]
  exact findRecord_filter_ne files e.name m h

/-- Saving a record makes the lookup of its own name return it. -/
theorem findRecord_saveRecord_self (files : List RecordFile) (e : Env) :
    findRecord (saveRecord files e) e.name = some e.save := by
  simp [saveRecord, findRecord, Env.save]

/-- After saving a record, loading its name returns exactly its paths. -/
theorem loadEnv_saveRecord_self (files : List RecordFile) (e : Env) :
    (loadEnv (saveRecord files e) e.name).env_paths = e.env_paths := by
  simp [loadEnv, findRecord_saveRecord_self, Env.save, contentPaths]

/-- Loading depends on the registry only through `findRecord`. -/
theorem loadEnv_congr {files files' : List RecordFile} {n : EnvName}
    (h : findRecord files n = findRecord files' n) :
    (loadEnv files n).env_paths = (loadEnv files' n).env_paths := by
  simp [loadEnv, h]

/-- The environment loaded for a name carries that name. -/
theorem loadEnv_name (files : List RecordFile) (n : EnvName) :
    (loadEnv files n).name = n := rfl

/-- Evaluation of `addpath` by cases on the filesystem check and on
membership of the resolved path in the current environment. -/
theorem addpath_eval (resolve : String → String) (fsExists : String → Bool)
    (s : FsState) (path : String) :
    addpath resolve fsExists s path =
      if fsExists path = false then .error (.pathDoesNotExist, s)
      else if resolve path ∈ (loadEnv s.records s.pointer).env_paths then .ok s
      else .ok ⟨saveRecord s.records
            ⟨s.pointer, (loadEnv s.records s.pointer).env_paths ++ [resolve path]⟩,
          s.pointer,
          if resolve path ∈ s.pathVar then s.pathVar
          else resolve path :: s.pathVar⟩ := by
  by_cases hex : fsExists path = false
  · simp [addpath, hex]
  · by_cases hmem : resolve path ∈ (loadEnv s.records s.pointer).env_paths
    · simp [addpath, Env.add_path, hex, hmem]
    · simp [addpath, Env.add_path, hex, hmem, loadEnv_name]

/-- Evaluation of `removepath` by cases on membership of the resolved path
in the current environment. -/
theorem removepath_eval (resolve : String → String) (s : FsState)
    (path : String) :
    removepath resolve s path =
      if resolve path ∈ (loadEnv s.records s.pointer).env_paths then
        ⟨saveRecord s.records
            ⟨s.pointer, (loadEnv s.records s.pointer).env_paths.erase (resolve path)⟩,
         s.pointer,
         if resolve path ∈ s.pathVar then s.pathVar.erase (resolve path)
         else s.pathVar⟩
      else s := by
  by_cases hmem : resolve path ∈ (loadEnv s.records s.pointer).env_paths
  · simp [removepath, Env.remove_path, hmem, loadEnv_name]
  · simp [removepath, Env.remove_path, hmem]

/-- A successful `addpath` writes at most the current environment's record:
lookups of every other name are unchanged. -/
theorem addpath_records_frame (resolve : String → String)
    (fsExists : String → Bool) (s : FsState) (path : String) (s2 : FsState)
    (m : EnvName) (hm : m ≠ s.pointer)
    (h : addpath resolve fsExists s path = .ok s2) :
    findRecord s2.records m = findRecord s.records m := by
  rw [addpath_eval] at h
  by_cases hex : fsExists path = false
  · rw [if_pos hex] at h
    exact absurd h (by simp)
  · rw [if_neg hex] at h
    by_cases hmem : resolve path ∈ (loadEnv s.records s.pointer).env_paths
    · rw [if_pos hmem] at h
      simp only [Except.ok.injEq] at h
      subst h
      rfl
    · rw [if_neg hmem] at h
      simp only [Except.ok.injEq] at h
      subst h
      exact findRecord_saveRecord_ne _ _ _ hm

/-- A `removepath` writes at most the current environment's record: lookups
of every other name are unchanged. -/
theorem removepath_records_frame (resolve : String → String) (s : FsState)
    (path : String) (m : EnvName) (hm : m ≠ s.pointer) :
    findRecord (removepath resolve s path).records m
      = findRecord s.records m := by
  rw [removepath_eval]
  by_cases hmem : resolve path ∈ (loadEnv s.records s.pointer).env_paths
  · rw [if_pos hmem]
    exact findRecord_saveRecord_ne _ _ _ hm
  · rw [if_neg hmem]

/-! ### Claim theorems -/

/-- Claim C1, counterexample: on the state `s0` (environment `dev` storing
`["/opt/dev/a", "/opt/dev/b"]`, ambient PATH `["/usr/bin"]`), activating
`dev` yields `["/opt/dev/b", "/opt/dev/a", "/usr/bin"]` — the target's
stored paths appear in reversed stored order — whereas the claimed
filter-then-prepend-in-stored-order result is
`["/opt/dev/a", "/opt/dev/b", "/usr/bin"]`. -/
theorem activate_prepend_order_cex :
    activate s0 "dev" .pyNone = .ok devActivated ∧
    claimedNewPathList (loadEnv s0.records "dev").env_paths s0.pathVar
        (unionPaths s0.records) = ["/opt/dev/a", "/opt/dev/b", "/usr/bin"] ∧
    devActivated.pathVar ≠ ["/opt/dev/a", "/opt/dev/b", "/usr/bin"] := by
  decide

/-- Claim C1, amended: for every ambient path list and every existing target
environment `T` (or `base`), in-process activation removes from the ambient
list every entry present in the union path set (order-preserving filter) and
then prepends `T`'s stored paths one by one at the head, skipping any
already present at that point — so the result begins with the
first occurrences of `T`'s stored paths not already in the filtered ambient
list, in REVERSED stored order, followed by the filtered ambient entries. -/
theorem activate_effective_path (s : FsState) (name : EnvName)
    (h : name = "base" ∨ recordExists s.records name = true) :
    activate s name .pyNone = .ok
      { s with
        pointer := name
        pathVar := (dedupNotIn (loadEnv s.records name).env_paths
            (s.pathVar.filter (fun p => p ∉ unionPaths s.records))).reverse
          ++ s.pathVar.filter (fun p => p ∉ unionPaths s.records) } :=
  activate_pyNone_ok s name (by rcases h with h | h <;> simp [h])

/-- Witness for the amended claim C1 at the concrete state `s0`. -/
theorem activate_effective_path_witness :
    activate s0 "dev" ExportArg.pyNone = .ok devActivated :=
  (activate_effective_path s0 "dev" (Or.inr (by decide))).trans (by decide)

/-- Claim C2: for environments `n1` (readable record, paths `P1`) and `n2`
(readable record, paths `P2` disjoint from `P1`), activating `n1` and then
`n2` leaves no element of `P1` in the resulting path list, whatever the
starting ambient path list was. -/
theorem activate_no_leak (s : FsState) (n1 n2 : EnvName) (f1 f2 : RecordFile)
    (P1 P2 : List PathStr) (m1 m2 : Option EnvName)
    (h1 : findRecord s.records n1 = some f1)
    (hc1 : f1.content = .parsed m1 P1)
    (h2 : findRecord s.records n2 = some f2)
    (hc2 : f2.content = .parsed m2 P2)
    (hdisj : ∀ p ∈ P1, p ∉ P2)
    (s1 s2 : FsState)
    (ha1 : activate s n1 .pyNone = .ok s1)
    (ha2 : activate s1 n2 .pyNone = .ok s2) :
    ∀ p ∈ P1, p ∉ s2.pathVar := by
  obtain ⟨-, e1⟩ := activate_pyNone_inv _ _ _ ha1
  subst e1
  obtain ⟨-, e2⟩ := activate_pyNone_inv _ _ _ ha2
  subst e2
  intro p hp hmem
  have hP2 : (loadEnv s.records n2).env_paths = P2 := by
    simp [loadEnv, h2, hc2, contentPaths]
  have hpu : p ∈ unionPaths s.records :=
    mem_unionPaths s.records f1 P1 p (findRecord_mem _ _ _ h1)
      (by rw [hc1]; rfl) hp
  rcases List.mem_append.mp hmem with hL | hR
  · have hd : p ∈ dedupNotIn (loadEnv s.records n2).env_paths _ :=
      List.mem_reverse.mp hL
    have : p ∈ (loadEnv s.records n2).env_paths := dedupNotIn_subset _ _ _ hd
    rw [hP2] at this
    exact hdisj p hp this
  · have := (List.mem_filter.mp hR).2
    simp only [decide_not, Bool.not_eq_true', decide_eq_false_iff_not] at this
    exact this hpu

/-- Witness for claim C2: the concrete two-environment leak scenario. -/
theorem activate_no_leak_witness : ("/opt/dev/a" : PathStr) ∉ leakEnd.pathVar := by
  have h := activate_no_leak leakStart "dev" "ci" devRecord ciRecord
    ["/opt/dev/a", "/opt/dev/b"] ["/opt/ci/bin"] (some "dev") (some "ci")
    (by decide) rfl (by decide) rfl (by decide) leakMid leakEnd
    (by decide) (by decide)
  exact h "/opt/dev/a" (by decide)

/-- Claim C3: on the state `s3` (record `dev` exists and is the active
environment), `delete "base"` fails with the reserved-name violation and the
carried state is unchanged; but `delete "dev"` does NOT remove the record:
the internal `activate("base")` call receives the truthy `typer.Option`
sentinel as `export_shell`, switches the pointer to `base`, then crashes
with a `TypeError` in `open()`, so the `unlink` is never reached and the
`dev` record survives (visible in the carried state). -/
theorem delete_active_env_crash :
    delete s3 "base" = .error (.reservedNameViolation, s3) ∧
    delete s3 "dev" = .error (.typeError, { s3 with pointer := "base" }) ∧
    recordExists s3.records "dev" = true := by
  decide

/-- Claim C4: in-process activation is idempotent — if activating `name`
from `s` succeeds with state `s1`, activating `name` again from `s1` yields
exactly `s1` (in particular the same effective path list). -/
theorem activate_idempotent (s : FsState) (name : EnvName) (s1 : FsState)
    (h : activate s name .pyNone = .ok s1) :
    activate s1 name .pyNone = .ok s1 := by
  obtain ⟨A, ptr, pv⟩ := s
  obtain ⟨hc, e1⟩ := activate_pyNone_inv_mk A ptr pv name s1 h
  subst e1
  have hP : ∀ p ∈ (loadEnv A name).env_paths, p ∈ unionPaths A :=
    fun p hp => loadEnv_mem_union A name p hp
  rw [activate_pyNone_ok_mk A name _ name hc,
    @filter_activated (loadEnv A name).env_paths pv (unionPaths A) hP]

/-- Witness for claim C4: re-activating `dev` on the already-activated
concrete state changes nothing. -/
theorem activate_idempotent_witness :
    activate devActivated "dev" ExportArg.pyNone = .ok devActivated :=
  activate_idempotent s0 "dev" devActivated (by decide)

/-- Claim C5: `add_path` resolves its argument (through the abstract
`resolve`); when the resolved path is already present it returns `false`,
leaves the path list unchanged and writes no record, otherwise it appends
the resolved path, writes the record and returns `true`; consequently a
second call with the same argument always returns `false`, mutates nothing
and writes nothing. -/
theorem add_path_duplicate_suppression (resolve : String → String)
    (e : Env) (p : String) :
    Env.add_path resolve (Env.add_path resolve e p).1 p
        = ((Env.add_path resolve e p).1, false, none) ∧
    (Env.add_path resolve e p).1.env_paths
        = (if resolve p ∈ e.env_paths then e.env_paths
           else e.env_paths ++ [resolve p]) ∧
    ((Env.add_path resolve e p).2.1 = true ↔ resolve p ∉ e.env_paths) ∧
    ((Env.add_path resolve e p).2.2
        = some (Env.save (Env.add_path resolve e p).1)
      ↔ resolve p ∉ e.env_paths) := by
  by_cases h : resolve p ∈ e.env_paths
  · simp [Env.add_path, h]
  · simp [Env.add_path, h]

/-- Claim C6: activating a non-`base` name with no record file fails with
`EnvironmentNotFound` carrying the unchanged state (whatever the
`export_shell` argument), while activating `base` always passes the
existence check — it succeeds even on a registry with no `base` record. -/
theorem activate_missing_env_error (s : FsState) (name : EnvName)
    (ex : ExportArg) (hname : name ≠ "base")
    (hmiss : recordExists s.records name = false) :
    activate s name ex = .error (.environmentNotFound, s) ∧
    isOk (activate s "base" ExportArg.pyNone) = true := by
  refine ⟨?_, ?_⟩
  · rw [activate, if_pos ⟨hname, hmiss⟩]
  · rw [activate, if_neg (by simp)]
    simp [isOk]

/-- Witness for claim C6: activating the absent `ghost` fails and leaves the
state untouched; activating `base` succeeds on the same registry, which has
no `base` record. -/
theorem activate_missing_env_error_witness :
    activate s0 "ghost" ExportArg.pyNone = .error (.environmentNotFound, s0) ∧
    isOk (activate s0 "base" ExportArg.pyNone) = true :=
  activate_missing_env_error s0 "ghost" ExportArg.pyNone (by decide) (by decide)

/-- Claim C7: reading the active-environment pointer never fails the caller:
a missing pointer file, an unreadable one, and unparseable content all
yield `"base"`. -/
theorem get_current_env_name_fallback (parse : String → Option EnvName)
    (st : PointerStorage)
    (h : st = .missing ∨ st = .unreadable ∨
        ∃ text, st = .contents text ∧ parse text = none) :
    get_current_env_name parse st = "base" := by
  rcases h with rfl | rfl | ⟨text, rfl, hp⟩
  · rfl
  · rfl
  · simp [get_current_env_name, hp]

/-- Witness for claim C7: a pointer file with unparseable content reads as
`base`. -/
theorem get_current_env_name_fallback_witness :
    get_current_env_name (fun _ => none) (PointerStorage.contents "garbage")
      = "base" :=
  get_current_env_name_fallback (fun _ => none)
    (PointerStorage.contents "garbage") (Or.inr (Or.inr ⟨"garbage", rfl, rfl⟩))

/-- Claim C8: in the validated listing, every discoverable non-base record
whose content is unreadable, empty, unparseable, or missing the `name`
field (that is, anything but a parsed object with a `name`) contributes an
invalid-file line identifying its origin file, and — however many such
records there are — every valid record is still listed under its declared
name, marked active exactly when that name is the current environment. -/
theorem list_invalid_records (files : List RecordFile) (current : EnvName)
    (f : RecordFile) (hf : f ∈ files) (hb : f.stem ≠ "base") :
    ((∀ n ps, f.content ≠ RecordContent.parsed (some n) ps) →
        ListEntry.invalid f.stem ∈ list files current) ∧
    (∀ n ps, f.content = RecordContent.parsed (some n) ps →
        (if n = current then ListEntry.active n else ListEntry.plain n)
          ∈ list files current) := by
  constructor
  · intro hinv
    refine List.mem_cons_of_mem _ (List.mem_filterMap.mpr ⟨f, hf, ?_⟩)
    rw [if_neg hb]
    rcases hfc : f.content with _ | _ | _ | ⟨nm, ps⟩
    · simp [entryFor, hfc]
    · simp [entryFor, hfc]
    · simp [entryFor, hfc]
    · cases nm with
      | none => simp [entryFor, hfc]
      | some n => exact absurd hfc (hinv n ps)
  · intro n ps hc
    refine List.mem_cons_of_mem _ (List.mem_filterMap.mpr ⟨f, hf, ?_⟩)
    rw [if_neg hb]
    simp [entryFor, hc]

/-- Witness for claim C8: with an unparseable record alongside a valid one,
the listing flags the broken file and still marks the valid active one. -/
theorem list_invalid_records_witness :
    ListEntry.invalid "broken" ∈ list [devRecord, brokenRecord] "dev" ∧
    ListEntry.active "dev" ∈ list [devRecord, brokenRecord] "dev" := by
  constructor
  · exact (list_invalid_records [devRecord, brokenRecord] "dev" brokenRecord
      (by decide) (by decide)).1 (fun n ps h => RecordContent.noConfusion h)
  · have h := (list_invalid_records [devRecord, brokenRecord] "dev" devRecord
      (by decide) (by decide)).2 "dev" ["/opt/dev/a", "/opt/dev/b"] rfl
    simpa using h

/-- Claim C9, counterexample: the claim quantifies over every non-base
target name, including the source itself. Cloning `dev` onto `dev` succeeds
and the stored lists agree at clone time, but a later `addpath` on the
source changes the target's stored list (they are the same record). -/
theorem clone_same_name_cex :
    clone s3 "dev" "dev" = .ok s3 ∧
    (loadEnv s3.records "dev").env_paths = ["/opt/dev/a", "/opt/dev/b"] ∧
    addpath (fun x => x) (fun _ => true) s3 "/opt/extra" = .ok selfCloneMutated ∧
    (loadEnv selfCloneMutated.records "dev").env_paths
      ≠ (loadEnv s3.records "dev").env_paths := by
  decide

/-- Claim C9, amended: for every existing source environment and every
non-base target name DISTINCT FROM THE SOURCE, `clone` gives the target a
stored path list identical to the source's at clone time, and later
mutations of the source environment (`addpath` or `removepath` run with the
source active) leave the target's stored path list unchanged. -/
theorem clone_frame (resolve : String → String) (fsE : String → Bool)
    (s : FsState) (src tgt : EnvName) (p : String) (s1 : FsState)
    (ht : tgt ≠ "base") (hne : tgt ≠ src)
    (hsrc : recordExists s.records src = true)
    (hclone : clone s src tgt = .ok s1) :
    (loadEnv s1.records tgt).env_paths = (loadEnv s.records src).env_paths ∧
    (∀ s2, addpath resolve fsE { s1 with pointer := src } p = .ok s2 →
        (loadEnv s2.records tgt).env_paths
          = (loadEnv s1.records tgt).env_paths) ∧
    (loadEnv (removepath resolve { s1 with pointer := src } p).records
        tgt).env_paths
      = (loadEnv s1.records tgt).env_paths := by
  rw [clone, if_neg ht, if_neg (by simp [hsrc])] at hclone
  injection hclone with e1
  subst e1
  refine ⟨?_, ?_, ?_⟩
  · exact loadEnv_saveRecord_self s.records
      ⟨tgt, (loadEnv s.records src).env_paths⟩
  · intro s2 hadd
    have hm : tgt ≠ (FsState.mk
        (saveRecord s.records ⟨tgt, (loadEnv s.records src).env_paths⟩)
        src s.pathVar).pointer := hne
    have hfr := addpath_records_frame resolve fsE _ p s2 tgt hm hadd
    exact loadEnv_congr (hfr.trans rfl)
  · have hm : tgt ≠ (FsState.mk
        (saveRecord s.records ⟨tgt, (loadEnv s.records src).env_paths⟩)
        src s.pathVar).pointer := hne
    exact loadEnv_congr ((removepath_records_frame resolve _ p tgt hm).trans rfl)

/-- Witness for the amended claim C9: the concrete `clone dev staging`
scenario, where a later `addpath` on `dev` leaves `staging` untouched. -/
theorem clone_frame_witness :
    (loadEnv cloneDone.records "staging").env_paths
      = (loadEnv cloneStart.records "dev").env_paths ∧
    (loadEnv cloneMutated.records "staging").env_paths
      = (loadEnv cloneDone.records "staging").env_paths := by
  have h := clone_frame (fun x => x) (fun _ => true) cloneStart "dev" "staging"
    "/opt/extra" cloneDone (by decide) (by decide) (by decide) (by decide)
  exact ⟨h.1, h.2.1 cloneMutated (by decide)⟩

/-- Claim C10: when the argument path does not exist on the filesystem, the
`addpath` command fails before touching anything — the carried state is the
unchanged input state, so neither the stored path list nor the process path
variable is mutated. Environment-level path addition itself, by contrast,
succeeds on the very same (non-existent) path, since resolution is pure
string normalisation. -/
theorem addpath_nonexistent_error (resolve : String → String)
    (fsExists : String → Bool) (s : FsState) (p : String)
    (h : fsExists p = false) :
    addpath resolve fsExists s p = .error (.pathDoesNotExist, s) ∧
    (∀ n : EnvName, Env.add_path resolve ⟨n, []⟩ p
        = (⟨n, [resolve p]⟩, true, some (Env.save ⟨n, [resolve p]⟩))) := by
  constructor
  · simp [addpath, h]
  · intro n
    simp [Env.add_path]

/-- Witness for claim C10: adding a non-existent path fails and leaves the
state unchanged, while the environment-level operation succeeds on it. -/
theorem addpath_nonexistent_error_witness :
    addpath (fun x => x) (fun _ => false) s0 "/nope"
      = .error (.pathDoesNotExist, s0) ∧
    Env.add_path (fun x => x) ⟨"dev", []⟩ "/nope"
      = (⟨"dev", ["/nope"]⟩, true, some (Env.save ⟨"dev", ["/nope"]⟩)) := by
  have h := addpath_nonexistent_error (fun x => x) (fun _ => false) s0 "/nope" rfl
  exact ⟨h.1, h.2 "dev"⟩

end EnvWrap
